import Mathlib

/-!
Verification of the OTLP metrics export envelope and its collaborators, as
described by the repository's specification, against a shallow embedding of
the code. The repository excerpt ships the tests of the `pmetricotlp`
envelope/transport and the `config` map together with `service/host.go`; the
bodies of the envelope codec, the schema migrator, the transport plumbing and
the config decoder are not part of the excerpt, so those operations are
modelled from the specification (each such definition says so in its doc
comment). `ReportFatalError` is embedded directly from `src/service/host.go`.
-/

namespace OtelCollector

/-! ## Metrics tree data model (spec section 3) -/

/-- Opaque resource descriptor: the spec treats the attributes blob as an
opaque payload, so the descriptor carries no fields. -/
structure Resource where
deriving DecidableEq

/-- Opaque scope descriptor: a name/version pair, contents otherwise opaque. -/
structure InstrumentationScope where
  name : String
  version : String
deriving DecidableEq

/-- The default/empty scope descriptor used by the schema migrator. -/
def InstrumentationScope.empty : InstrumentationScope := ⟨"", ""⟩

/-- Opaque data-point record: the spec treats data points as opaque payload
owned by the metric node's active variant. -/
structure DataPoint where
deriving DecidableEq

/-- The data-point variant of a metric node: exactly one of a closed set of
shapes, or unset (which is valid and contributes zero data points). -/
inductive MetricData where
  | unset
  | gauge (dataPoints : List DataPoint)
  | sum (dataPoints : List DataPoint)
  | histogram (dataPoints : List DataPoint)
  | exponentialHistogram (dataPoints : List DataPoint)
  | summary (dataPoints : List DataPoint)
deriving DecidableEq

/-- A metric node: name, unit, description and its data-point variant. -/
structure Metric where
  name : String
  unit : String
  description : String
  data : MetricData
deriving DecidableEq

/-- A freshly appended, zero-valued metric node. -/
def Metric.emptyMetric : Metric := ⟨"", "", "", MetricData.unset⟩

/-- A current-schema group: scope descriptor plus its ordered metrics. -/
structure ScopeMetrics where
  scope : InstrumentationScope
  metrics : List Metric
deriving DecidableEq

/-- A freshly appended, zero-valued scope group. -/
def ScopeMetrics.emptyScopeMetrics : ScopeMetrics := ⟨InstrumentationScope.empty, []⟩

/-- A deprecated-schema group: opaque library descriptor plus its metrics. -/
structure InstrumentationLibraryMetrics where
  instrumentationLibrary : InstrumentationScope
  metrics : List Metric
deriving DecidableEq

/-- A resource entry: opaque resource descriptor, the current-schema group
list, and the deprecated-schema group list (retained at the wire level only;
after migration it is never read again). -/
structure ResourceMetrics where
  resource : Resource
  scopeMetrics : List ScopeMetrics
  instrumentationLibraryMetrics : List InstrumentationLibraryMetrics
deriving DecidableEq

/-- A freshly appended, zero-valued resource entry. -/
def ResourceMetrics.emptyResourceMetrics : ResourceMetrics := ⟨⟨⟩, [], []⟩

/-- The metrics tree: an ordered forest of resource entries. -/
structure MetricsData where
  resourceMetrics : List ResourceMetrics
deriving DecidableEq

/-- The empty metrics tree. -/
def MetricsData.empty : MetricsData := ⟨[]⟩

/-- Number of data points in the metric's active variant (0 if unset). -/
def Metric.dataPoints : Metric → List DataPoint
  | ⟨_, _, _, MetricData.unset⟩ => []
  | ⟨_, _, _, MetricData.gauge ps⟩ => ps
  | ⟨_, _, _, MetricData.sum ps⟩ => ps
  | ⟨_, _, _, MetricData.histogram ps⟩ => ps
  | ⟨_, _, _, MetricData.exponentialHistogram ps⟩ => ps
  | ⟨_, _, _, MetricData.summary ps⟩ => ps

/-- Total count of metric nodes across all resources and scopes. Metrics are
exposed only through the current-schema groups. -/
def MetricsData.MetricCount (md : MetricsData) : Nat :=
  (md.resourceMetrics.map fun rm =>
    (rm.scopeMetrics.map fun sm => sm.metrics.length).sum).sum

/-- Sum over all metric nodes of the length of the active variant collection. -/
def MetricsData.DataPointCount (md : MetricsData) : Nat :=
  (md.resourceMetrics.map fun rm =>
    (rm.scopeMetrics.map fun sm =>
      (sm.metrics.map fun m => m.dataPoints.length).sum).sum).sum

/-- The ordered list of metric names in the tree, read through the
current-schema groups. -/
def MetricsData.metricNames (md : MetricsData) : List String :=
  (md.resourceMetrics.map fun rm =>
    (rm.scopeMetrics.map fun sm => sm.metrics.map Metric.name).flatten).flatten

/-- A tree that carries no deprecated-schema content on any resource entry. -/
def MetricsData.noDeprecated (md : MetricsData) : Prop :=
  ∀ rm ∈ md.resourceMetrics, rm.instrumentationLibraryMetrics = []

instance (md : MetricsData) : Decidable md.noDeprecated := by
  unfold MetricsData.noDeprecated; infer_instance

/-! ## Schema migrator (spec section 4.2) -/

/-- Modelled from the spec: the Schema Migrator's per-entry step (the body of
`otlp.InstrumentationLibraryMetricsToScope` is not in the excerpt). If the
entry's current-schema group list is non-empty it is authoritative and any
deprecated-schema list is ignored, the decoded result being that of the
current grouping alone; else a non-empty deprecated list is migrated, each
deprecated group becoming one current group with the default/empty scope
descriptor and the identical metrics list, and the deprecated list is
cleared; else the entry is left unchanged. -/
def migrateResourceMetrics (rm : ResourceMetrics) : ResourceMetrics :=
  match rm.scopeMetrics with
  | [] =>
    match rm.instrumentationLibraryMetrics with
    | [] => rm
    | ils =>
      { rm with
        scopeMetrics := ils.map fun il => ⟨InstrumentationScope.empty, il.metrics⟩
        instrumentationLibraryMetrics := [] }
  | _ => { rm with instrumentationLibraryMetrics := [] }

/-- Modelled from the spec: the directly invocable normalization pass over a
whole forest of resource entries. -/
def InstrumentationLibraryMetricsToScope (rms : List ResourceMetrics) :
    List ResourceMetrics :=
  rms.map migrateResourceMetrics

/-- Normalization of a whole tree. -/
def MetricsData.migrate (md : MetricsData) : MetricsData :=
  ⟨InstrumentationLibraryMetricsToScope md.resourceMetrics⟩

/-! ## Wire JSON grammar (spec section 6)

The wire text is JSON; the fragment of JSON the wire grammar uses consists of
strings, arrays and objects (field order significant for the byte-level
round-trip statements). -/

/-- The JSON fragment used by the wire grammar. -/
inductive Json where
  | str (s : String)
  | arr (elems : List Json)
  | obj (fields : List (String × Json))

mutual

/-- Structural equality test on JSON values. -/
def Json.beq : Json → Json → Bool
  | .str a, .str b => decide (a = b)
  | .arr a, .arr b => Json.beqElems a b
  | .obj a, .obj b => Json.beqFields a b
  | _, _ => false

/-- Structural equality test on element lists. -/
def Json.beqElems : List Json → List Json → Bool
  | [], [] => true
  | x :: xs, y :: ys => Json.beq x y && Json.beqElems xs ys
  | _, _ => false

/-- Structural equality test on field lists. -/
def Json.beqFields : List (String × Json) → List (String × Json) → Bool
  | [], [] => true
  | (k₁, v₁) :: xs, (k₂, v₂) :: ys =>
    decide (k₁ = k₂) && Json.beq v₁ v₂ && Json.beqFields xs ys
  | _, _ => false

end

mutual

/-- The equality test decides equality of JSON values. -/
theorem Json.beq_iff_eq : ∀ a b : Json, Json.beq a b = true ↔ a = b
  | .str _, .str _ => by simp [Json.beq]
  | .arr x, .arr y => by
    simp only [Json.beq, Json.beqElems_iff_eq x y, Json.arr.injEq]
  | .obj x, .obj y => by
    simp only [Json.beq, Json.beqFields_iff_eq x y, Json.obj.injEq]
  | .str _, .arr _ | .str _, .obj _ | .arr _, .str _ | .arr _, .obj _
  | .obj _, .str _ | .obj _, .arr _ => by simp [Json.beq]

/-- The element-list equality test decides equality. -/
theorem Json.beqElems_iff_eq : ∀ a b : List Json, Json.beqElems a b = true ↔ a = b
  | [], [] => by simp [Json.beqElems]
  | x :: xs, y :: ys => by
    simp [Json.beqElems, Json.beq_iff_eq x y, Json.beqElems_iff_eq xs ys]
  | [], _ :: _ | _ :: _, [] => by simp [Json.beqElems]

/-- The field-list equality test decides equality. -/
theorem Json.beqFields_iff_eq :
    ∀ a b : List (String × Json), Json.beqFields a b = true ↔ a = b
  | [], [] => by simp [Json.beqFields]
  | (k₁, v₁) :: xs, (k₂, v₂) :: ys => by
    simp [Json.beqFields, Json.beq_iff_eq v₁ v₂, Json.beqFields_iff_eq xs ys,
      and_assoc]
  | [], _ :: _ | _ :: _, [] => by simp [Json.beqFields]

end

instance : DecidableEq Json := fun a b =>
  decidable_of_iff (Json.beq a b = true) (Json.beq_iff_eq a b)

/-- Minimal JSON string escaping (quote and backslash). -/
def escapeChar (c : Char) : String :=
  if c = '"' ∨ c = '\\' then String.push "\\" c else String.singleton c

/-- A JSON string literal with its surrounding quotes. -/
def renderString (s : String) : String :=
  "\"" ++ String.join (s.toList.map escapeChar) ++ "\""

mutual

/-- Minified (whitespace-free) serialization of a JSON value. -/
def Json.render : Json → String
  | .str s => renderString s
  | .arr xs => "[" ++ Json.renderElems xs ++ "]"
  | .obj fs => "\x7b" ++ Json.renderFields fs ++ "\x7d"

/-- Comma-separated serialization of array elements. -/
def Json.renderElems : List Json → String
  | [] => ""
  | [x] => Json.render x
  | x :: y :: xs => Json.render x ++ "," ++ Json.renderElems (y :: xs)

/-- Comma-separated serialization of object fields. -/
def Json.renderFields : List (String × Json) → String
  | [] => ""
  | [(k, v)] => renderString k ++ ":" ++ Json.render v
  | (k, v) :: f :: fs =>
    renderString k ++ ":" ++ Json.render v ++ "," ++ Json.renderFields (f :: fs)

end

mutual

/-- Whether the object key `k` occurs anywhere in the JSON value. -/
def Json.mentionsKey (k : String) : Json → Bool
  | .str _ => false
  | .arr xs => Json.mentionsKeyElems k xs
  | .obj fs => Json.mentionsKeyFields k fs

/-- Whether the object key `k` occurs anywhere in a list of JSON values. -/
def Json.mentionsKeyElems (k : String) : List Json → Bool
  | [] => false
  | x :: xs => Json.mentionsKey k x || Json.mentionsKeyElems k xs

/-- Whether the object key `k` occurs in the fields or below them. -/
def Json.mentionsKeyFields (k : String) : List (String × Json) → Bool
  | [] => false
  | (key, v) :: fs =>
    decide (key = k) || Json.mentionsKey k v || Json.mentionsKeyFields k fs

end

/-- First field with the given key, if any. -/
def lookupField {α : Type} (k : String) : List (String × α) → Option α
  | [] => Option.none
  | (key, v) :: fs => if key = k then some v else lookupField k fs

/-- Whether an `Except` value is an error. -/
def isError : Except String α → Bool
  | .error _ => true
  | .ok _ => false

instance {ε α : Type} [DecidableEq ε] [DecidableEq α] : DecidableEq (Except ε α)
  | .ok a, .ok b =>
    if h : a = b then isTrue (by rw [h]) else isFalse (by simp [h])
  | .error a, .error b =>
    if h : a = b then isTrue (by rw [h]) else isFalse (by simp [h])
  | .ok _, .error _ => isFalse (by simp)
  | .error _, .ok _ => isFalse (by simp)

/-- Decoding of every element of a list, failing on the first faulty
element. -/
def decodeList {α β : Type} (dec : α → Except String β) :
    List α → Except String (List β)
  | [] => .ok []
  | x :: xs => do
    let a ← dec x
    let rest ← decodeList dec xs
    .ok (a :: rest)

/-! ### Decoders (modelled from the spec's wire grammar) -/

/-- Modelled from the spec: decoding of an opaque resource descriptor (the
envelope codec is not in the excerpt); any object is accepted. -/
def decodeResource : Json → Except String Resource
  | .obj _ => .ok ⟨⟩
  | _ => .error "resource: expected object"

/-- A string-valued field with the empty string as default when absent. -/
def getStringField (fs : List (String × Json)) (k : String) : Except String String :=
  match lookupField k fs with
  | Option.none => .ok ""
  | some (.str s) => .ok s
  | some _ => .error "expected string"

/-- Modelled from the spec: decoding of an opaque scope descriptor. -/
def decodeScope : Json → Except String InstrumentationScope
  | .obj fs => do
    let n ← getStringField fs "name"
    let v ← getStringField fs "version"
    .ok ⟨n, v⟩
  | _ => .error "scope: expected object"

/-- Modelled from the spec: decoding of an opaque data-point record. -/
def decodeDataPoint : Json → Except String DataPoint
  | .obj _ => .ok ⟨⟩
  | _ => .error "data point: expected object"

/-- Decoding of an optional `dataPoints` array inside a variant object. -/
def decodePointsField (fs : List (String × Json)) : Except String (List DataPoint) :=
  match lookupField "dataPoints" fs with
  | Option.none => .ok []
  | some (.arr xs) => decodeList decodeDataPoint xs
  | some _ => .error "dataPoints: expected array"

/-- Decoding of one variant object into the given variant shape. -/
def decodeVariant (mk : List DataPoint → MetricData) :
    Json → Except String MetricData
  | .obj fs => (decodePointsField fs).map mk
  | _ => .error "metric data: expected object"

/-- Decoding of whichever variant field is present on a metric object (unset
when none of the closed set of variant field names occurs). -/
def decodeMetricData (fs : List (String × Json)) : Except String MetricData :=
  match lookupField "gauge" fs with
  | some j => decodeVariant MetricData.gauge j
  | Option.none =>
  match lookupField "sum" fs with
  | some j => decodeVariant MetricData.sum j
  | Option.none =>
  match lookupField "histogram" fs with
  | some j => decodeVariant MetricData.histogram j
  | Option.none =>
  match lookupField "exponentialHistogram" fs with
  | some j => decodeVariant MetricData.exponentialHistogram j
  | Option.none =>
  match lookupField "summary" fs with
  | some j => decodeVariant MetricData.summary j
  | Option.none => .ok MetricData.unset

/-- Modelled from the spec: decoding of a metric node. -/
def decodeMetric : Json → Except String Metric
  | .obj fs => do
    let n ← getStringField fs "name"
    let u ← getStringField fs "unit"
    let d ← getStringField fs "description"
    let data ← decodeMetricData fs
    .ok ⟨n, u, d, data⟩
  | _ => .error "metric: expected object"

/-- Decoding of an optional `metrics` array. -/
def decodeMetricsField (fs : List (String × Json)) : Except String (List Metric) :=
  match lookupField "metrics" fs with
  | Option.none => .ok []
  | some (.arr xs) => decodeList decodeMetric xs
  | some _ => .error "metrics: expected array"

/-- Modelled from the spec: decoding of a current-schema group. -/
def decodeScopeMetrics : Json → Except String ScopeMetrics
  | .obj fs => do
    let sc ← match lookupField "scope" fs with
      | Option.none => .ok InstrumentationScope.empty
      | some j => decodeScope j
    let ms ← decodeMetricsField fs
    .ok ⟨sc, ms⟩
  | _ => .error "scopeMetrics: expected object"

/-- Modelled from the spec: decoding of a deprecated-schema group. -/
def decodeInstrumentationLibraryMetrics :
    Json → Except String InstrumentationLibraryMetrics
  | .obj fs => do
    let lib ← match lookupField "instrumentationLibrary" fs with
      | Option.none => .ok InstrumentationScope.empty
      | some j => decodeScope j
    let ms ← decodeMetricsField fs
    .ok ⟨lib, ms⟩
  | _ => .error "instrumentationLibraryMetrics: expected object"

/-- Modelled from the spec: decoding of one resource entry, reading both the
current-schema and the deprecated-schema group lists. -/
def decodeResourceMetrics : Json → Except String ResourceMetrics
  | .obj fs => do
    let res ← match lookupField "resource" fs with
      | Option.none => .ok (⟨⟩ : Resource)
      | some j => decodeResource j
    let sms ← match lookupField "scopeMetrics" fs with
      | Option.none => .ok []
      | some (.arr xs) => decodeList decodeScopeMetrics xs
      | some _ => .error "scopeMetrics: expected array"
    let ils ← match lookupField "instrumentationLibraryMetrics" fs with
      | Option.none => .ok []
      | some (.arr xs) => decodeList decodeInstrumentationLibraryMetrics xs
      | some _ => .error "instrumentationLibraryMetrics: expected array"
    .ok ⟨res, sms, ils⟩
  | _ => .error "resourceMetrics: expected object"

/-- Modelled from the spec: decoding of the top-level wire object into a raw
(not yet normalized) tree. -/
def decodeMetricsData : Json → Except String MetricsData
  | .obj fs => do
    let rms ← match lookupField "resourceMetrics" fs with
      | Option.none => .ok []
      | some (.arr xs) => decodeList decodeResourceMetrics xs
      | some _ => .error "resourceMetrics: expected array"
    .ok ⟨rms⟩
  | _ => .error "expected object"

/-! ### Encoders (modelled from the spec: current schema only, empty/default
fields omitted) -/

/-- A string field, omitted when the value is the empty default. -/
def strField (k : String) (v : String) : List (String × Json) :=
  if v = "" then [] else [(k, .str v)]

/-- Encoding of an opaque data point. -/
def encodeDataPoint (_ : DataPoint) : Json := .obj []

/-- The `dataPoints` field of a variant object, omitted when empty. -/
def encodePointsField (ps : List DataPoint) : List (String × Json) :=
  if ps.isEmpty then [] else [("dataPoints", .arr (ps.map encodeDataPoint))]

/-- Encoding of the variant field of a metric object, omitted when unset. -/
def encodeMetricData : MetricData → List (String × Json)
  | MetricData.unset => []
  | MetricData.gauge ps => [("gauge", .obj (encodePointsField ps))]
  | MetricData.sum ps => [("sum", .obj (encodePointsField ps))]
  | MetricData.histogram ps => [("histogram", .obj (encodePointsField ps))]
  | MetricData.exponentialHistogram ps =>
    [("exponentialHistogram", .obj (encodePointsField ps))]
  | MetricData.summary ps => [("summary", .obj (encodePointsField ps))]

/-- Modelled from the spec: encoding of a metric node, omitting empty fields. -/
def encodeMetric (m : Metric) : Json :=
  .obj (strField "name" m.name ++ strField "unit" m.unit ++
    strField "description" m.description ++ encodeMetricData m.data)

/-- Modelled from the spec: encoding of a scope descriptor. -/
def encodeScope (sc : InstrumentationScope) : Json :=
  .obj (strField "name" sc.name ++ strField "version" sc.version)

/-- The `metrics` field of a group object, omitted when empty. -/
def encodeMetricsField (ms : List Metric) : List (String × Json) :=
  if ms.isEmpty then [] else [("metrics", .arr (ms.map encodeMetric))]

/-- Modelled from the spec: encoding of a current-schema group. -/
def encodeScopeMetrics (sm : ScopeMetrics) : Json :=
  .obj (("scope", encodeScope sm.scope) :: encodeMetricsField sm.metrics)

/-- Modelled from the spec: encoding of a resource entry using the current
schema only; the deprecated group list is never emitted. -/
def encodeResourceMetrics (rm : ResourceMetrics) : Json :=
  .obj (("resource", .obj []) ::
    (if rm.scopeMetrics.isEmpty then []
     else [("scopeMetrics", .arr (rm.scopeMetrics.map encodeScopeMetrics))]))

/-- Modelled from the spec: encoding of the whole tree. -/
def encodeMetricsData (md : MetricsData) : Json :=
  .obj (if md.resourceMetrics.isEmpty then []
    else [("resourceMetrics", .arr (md.resourceMetrics.map encodeResourceMetrics))])

/-! ## Envelope (spec section 4.3) -/

/-- The outbound request envelope wrapping a metrics tree. -/
structure Request where
  metrics : MetricsData
deriving DecidableEq

/-- The returned response envelope wrapping a metrics tree. -/
structure Response where
  metrics : MetricsData
deriving DecidableEq

/-- A fresh request envelope wrapping a newly created empty tree. -/
def NewRequest : Request := ⟨MetricsData.empty⟩

/-- A fresh response envelope; also the zero value, the canonical
"success, no data" marker. -/
def NewResponse : Response := ⟨MetricsData.empty⟩

/-- Wrapping of an existing tree (by reference in the code; the model is a
value model, identity sharing is out of its scope). -/
def NewRequestFromMetrics (md : MetricsData) : Request := ⟨md⟩

/-- Modelled from the spec: `UnmarshalJSON` parses the wire grammar, builds
the tree and invokes the Schema Migrator (the codec body is not in the
excerpt). -/
def Request.UnmarshalJSON (j : Json) : Except String Request :=
  (decodeMetricsData j).map fun md => ⟨md.migrate⟩

/-- Modelled from the spec: the JSON value emitted by `MarshalJSON` (current
schema only, empty/default fields omitted). -/
def Request.MarshalJSONValue (r : Request) : Json :=
  encodeMetricsData r.metrics

/-- Modelled from the spec: `MarshalJSON` serializes the emitted JSON value
without whitespace. -/
def Request.MarshalJSON (r : Request) : String :=
  (Request.MarshalJSONValue r).render

/-! ## Transport (spec section 4.4) -/

/-- Classification codes carried by a wire status. -/
inductive StatusCode where
  | ok
  | unknown
deriving DecidableEq

/-- A wire status: classification code plus literal message text. -/
structure GrpcStatus where
  code : StatusCode
  message : String
deriving DecidableEq

/-- The handler capability: `Export(context, Request) -> (Response, error)`,
with the error modelled by its literal message text. -/
def Server : Type := Request → Response × Option String

/-- Modelled from the spec: the server side of one `Export` call. The inbound
binary wire request is decoded into a `Request` envelope, schema-normalized,
and dispatched to the handler; a handler error yields a failure status with
the error's message and the generic unknown classification without encoding
any response; otherwise the handler's response is returned. -/
def serverExport (handler : Server) (wire : MetricsData) :
    Except GrpcStatus Response :=
  match handler ⟨wire.migrate⟩ with
  | (resp, Option.none) => .ok resp
  | (_, some msg) => .error ⟨StatusCode.unknown, msg⟩

/-- Modelled from the spec: the client side of one `Export` call over the
transport: on success status the decoded response, on failure status a
zero-value response together with the status. -/
def clientExport (handler : Server) (req : Request) :
    Response × Option GrpcStatus :=
  match serverExport handler req.metrics with
  | .ok resp => (resp, Option.none)
  | .error st => (NewResponse, some st)

/-! ## Append-only construction (spec section 4.1) and the test data -/

/-- Replacement of the last element of a list by `f` of it (the handle
returned by the previous `AppendEmpty` is the last element). -/
def modifyLast (f : α → α) : List α → List α
  | [] => []
  | [x] => [f x]
  | x :: y :: xs => x :: modifyLast f (y :: xs)

/-- `ResourceMetrics().AppendEmpty()` on the wrapped tree. -/
def MetricsData.appendEmptyResourceMetrics (md : MetricsData) : MetricsData :=
  ⟨md.resourceMetrics ++ [ResourceMetrics.emptyResourceMetrics]⟩

/-- `ScopeMetrics().AppendEmpty()` on the handle of the last appended
resource entry. -/
def MetricsData.appendEmptyScopeMetrics (md : MetricsData) : MetricsData :=
  ⟨modifyLast (fun rm =>
    { rm with scopeMetrics := rm.scopeMetrics ++ [ScopeMetrics.emptyScopeMetrics] })
    md.resourceMetrics⟩

/-- `Metrics().AppendEmpty()` on the handle of the last appended scope
group. -/
def MetricsData.appendEmptyMetric (md : MetricsData) : MetricsData :=
  ⟨modifyLast (fun rm =>
    { rm with scopeMetrics := modifyLast (fun sm =>
        { sm with metrics := sm.metrics ++ [Metric.emptyMetric] }) rm.scopeMetrics })
    md.resourceMetrics⟩

/-- An update of the last appended metric node through its handle. -/
def MetricsData.modifyLastMetric (f : Metric → Metric) (md : MetricsData) :
    MetricsData :=
  ⟨modifyLast (fun rm =>
    { rm with scopeMetrics := modifyLast (fun sm =>
        { sm with metrics := modifyLast f sm.metrics }) rm.scopeMetrics })
    md.resourceMetrics⟩

/-- The request built by the tests: one resource, one scope group, one metric
named `test_metric` whose Gauge variant has one appended data point. -/
def generateMetricsRequest : Request :=
  let md := MetricsData.empty.appendEmptyResourceMetrics.appendEmptyScopeMetrics.appendEmptyMetric
  let md := md.modifyLastMetric fun m => { m with name := "test_metric" }
  let md := md.modifyLastMetric fun m => { m with data := MetricData.gauge [] }
  let md := md.modifyLastMetric fun m =>
    match m.data with
    | MetricData.gauge ps => { m with data := MetricData.gauge (ps ++ [⟨⟩]) }
    | d => { m with data := d }
  NewRequestFromMetrics md

/-- The request built by the tests with only the deprecated grouping: the
metrics list of the single scope group is moved to one deprecated group and
the current-schema group list is cleared. -/
def generateMetricsRequestWithInstrumentationLibrary : Request :=
  let r := generateMetricsRequest
  ⟨⟨modifyLast (fun rm =>
    { rm with
      instrumentationLibraryMetrics :=
        [⟨InstrumentationScope.empty,
          ((rm.scopeMetrics.headD ScopeMetrics.emptyScopeMetrics).metrics)⟩]
      scopeMetrics := [] }) r.metrics.resourceMetrics⟩⟩

/-! ## Concrete wire documents from the tests -/

/-- The minimal current-schema document `metricsRequestJSON`. -/
def metricsRequestJSONValue : Json :=
  .obj [("resourceMetrics", .arr [
    .obj [("resource", .obj []),
          ("scopeMetrics", .arr [
            .obj [("scope", .obj []),
                  ("metrics", .arr [.obj [("name", .str "test_metric")]])]])]])]

/-- The first transition document: deprecated grouping only. -/
def metricsTransitionDataDeprecated : Json :=
  .obj [("resourceMetrics", .arr [
    .obj [("resource", .obj []),
          ("instrumentationLibraryMetrics", .arr [
            .obj [("instrumentationLibrary", .obj []),
                  ("metrics", .arr [.obj [("name", .str "test_metric")]])]])]])]

/-- The second transition document: both groupings populated with the same
metrics. -/
def metricsTransitionDataBoth : Json :=
  .obj [("resourceMetrics", .arr [
    .obj [("resource", .obj []),
          ("instrumentationLibraryMetrics", .arr [
            .obj [("instrumentationLibrary", .obj []),
                  ("metrics", .arr [.obj [("name", .str "test_metric")]])]]),
          ("scopeMetrics", .arr [
            .obj [("scope", .obj []),
                  ("metrics", .arr [.obj [("name", .str "test_metric")]])]])]])]

/-! ## Config map decoding (spec section 6, collaborator contract) -/

/-- A hierarchical configuration value: nil, scalar, or nested map (field
order as listed). -/
inductive ConfigValue where
  | nil
  | bool (b : Bool)
  | str (s : String)
  | map (entries : List (String × ConfigValue))

/-- The structured leaf type of the config tests. -/
structure Struct where
  name : String
deriving DecidableEq

/-- The zero-valued structure. -/
def Struct.zero : Struct := ⟨""⟩

/-- The target of the nil-expansion config tests: a pointer-to-bool field, a
pointer-to-struct field, and a map-valued struct field (pointers modelled as
options, maps as ordered association lists). -/
structure TestConfig where
  boolean : Option Bool
  struct : Option Struct
  mapStruct : List (String × Struct)
deriving DecidableEq

/-- A zero-valued target. -/
def TestConfig.zero : TestConfig := ⟨Option.none, Option.none, []⟩

/-- Modelled from the spec: decoding of a `Struct` body from a nested map
(the decoder body is not in the excerpt). -/
def decodeStructBody (fs : List (String × ConfigValue)) : Except String Struct :=
  match lookupField "name" fs with
  | Option.none => .ok Struct.zero
  | some (ConfigValue.str s) => .ok ⟨s⟩
  | some _ => .error "name: expected string"

/-- Modelled from the spec: decoding of one entry of a map-valued struct
field; a nil-valued entry materializes as a zero-valued structure rather than
being left unset. -/
def unmarshalMapStructEntry : String × ConfigValue → Except String (String × Struct)
  | (k, ConfigValue.nil) => .ok (k, Struct.zero)
  | (k, ConfigValue.map fs) => (decodeStructBody fs).map fun s => (k, s)
  | (_, _) => .error "map_struct entry: expected map"

/-- Modelled from the spec: `UnmarshalExact` into the `TestConfig` target.
A nil-valued entry for a top-level pointer field leaves the field as it was
on the target; a nil-valued entry under the map-valued struct field
materializes a zero-valued structure (the documented per-context
inconsistency); unknown keys fail. -/
def unmarshalExactTestConfig (m : List (String × ConfigValue)) (cfg : TestConfig) :
    Except String TestConfig :=
  match m with
  | [] => .ok cfg
  | ("boolean", v) :: rest =>
    match v with
    | ConfigValue.nil => unmarshalExactTestConfig rest cfg
    | ConfigValue.bool b => unmarshalExactTestConfig rest { cfg with boolean := some b }
    | _ => .error "boolean: expected bool"
  | ("struct", v) :: rest =>
    match v with
    | ConfigValue.nil => unmarshalExactTestConfig rest cfg
    | ConfigValue.map fs =>
      match decodeStructBody fs with
      | .ok s => unmarshalExactTestConfig rest { cfg with struct := some s }
      | .error e => .error e
    | _ => .error "struct: expected map"
  | ("map_struct", v) :: rest =>
    match v with
    | ConfigValue.nil => unmarshalExactTestConfig rest cfg
    | ConfigValue.map entries =>
      match decodeList unmarshalMapStructEntry entries with
      | .ok l => unmarshalExactTestConfig rest { cfg with mapStruct := l }
      | .error e => .error e
    | _ => .error "map_struct: expected map"
  | (k, _) :: _ => .error ("invalid keys: " ++ k)

/-- Removal of one trailing underscore, if present. -/
def trimTrailingUnderscore (s : String) : String :=
  match s.toList.getLast? with
  | some c => if c = '_' then String.mk s.toList.dropLast else s
  | Option.none => s

/-- The text decoder of the `TestID` key type: a trailing underscore is
trimmed, and the value `error` fails with a parsing error. -/
def TestID.UnmarshalText (s : String) : Except String String :=
  let t := trimTrailingUnderscore s
  if t = "error" then .error "parsing error" else .ok t

/-- Modelled from the spec: the per-key text decoding of map keys performed
by `UnmarshalExact` for targets whose map key type decodes from text (the
hook body is not in the excerpt). Each input key is decoded through the key
type's text decoder; a per-key decode failure propagates, and two distinct
input keys decoding to the same key value fail with a duplicate-key error. -/
def mapKeyTextDecode {κ ν : Type} [DecidableEq κ] (dec : String → Except String κ) :
    List (String × ν) → Except String (List (κ × ν))
  | [] => .ok []
  | (k, x) :: rest =>
    match dec k with
    | .error e => .error e
    | .ok key =>
      match mapKeyTextDecode dec rest with
      | .error e => .error e
      | .ok restDecoded =>
        if restDecoded.any fun p => decide (p.1 = key) then .error "duplicate key"
        else .ok ((key, x) :: restDecoded)

/-- The target of the text-keyed map config tests. -/
structure TestIDConfig where
  boolean : Bool
  map : List (String × String)
deriving DecidableEq

/-- Modelled from the spec: `UnmarshalExact` into the `TestIDConfig` target,
routing the `map` field's keys through the text decoder of `TestID`. -/
def unmarshalExactTestIDConfig (m : List (String × ConfigValue))
    (cfg : TestIDConfig) : Except String TestIDConfig :=
  match m with
  | [] => .ok cfg
  | ("bool", v) :: rest =>
    match v with
    | ConfigValue.bool b => unmarshalExactTestIDConfig rest { cfg with boolean := b }
    | _ => .error "bool: expected bool"
  | ("map", v) :: rest =>
    match v with
    | ConfigValue.map entries =>
      match decodeList (fun p =>
          match p with
          | (k, ConfigValue.str s) => .ok (k, s)
          | (_, _) => .error "map entry: expected string") entries with
      | .error e => .error e
      | .ok entriesStr =>
        match mapKeyTextDecode TestID.UnmarshalText entriesStr with
        | .error e => .error e
        | .ok decoded => unmarshalExactTestIDConfig rest { cfg with map := decoded }
    | _ => .error "map: expected map"
  | (k, _) :: _ => .error ("invalid keys: " ++ k)

/-! ## The host's fatal-error sink (src/service/host.go) -/

/-- The state of the process-wide `asyncErrorChannel`: its buffer capacity,
its currently buffered errors, and whether a consumer goroutine is currently
blocked waiting to receive (draining). -/
structure ErrorChannel where
  capacity : Nat
  buffered : List String
  receiverWaiting : Bool
deriving DecidableEq

/-- Embedding of `serviceHost.ReportFatalError` (src/service/host.go line 43):
the body is the plain Go channel send `host.asyncErrorChannel <- err`. Under
Go semantics the send completes at once iff a receiver is waiting on the
channel or buffer capacity remains; otherwise the sending goroutine blocks,
modelled as `Option.none`. -/
def ReportFatalError (ch : ErrorChannel) (err : String) : Option ErrorChannel :=
  if ch.receiverWaiting then some { ch with receiverWaiting := false }
  else if ch.buffered.length < ch.capacity then
    some { ch with buffered := ch.buffered ++ [err] }
  else Option.none

/-! ## Wire document builders (for the dual-presence and migration claims) -/

/-- A top-level wire document with the given resource entries. -/
def mkMetricsDoc (entries : List Json) : Json :=
  .obj [("resourceMetrics", .arr entries)]

/-- A resource entry carrying a current-schema group list and, optionally,
a deprecated-schema group list. -/
def mkResourceEntry (res : Json) (sg : List Json) (il : Option (List Json)) : Json :=
  .obj ([("resource", res), ("scopeMetrics", .arr sg)] ++
    (match il with
     | some l => [("instrumentationLibraryMetrics", .arr l)]
     | Option.none => []))

/-- A deprecated-schema group document node. -/
def mkILGroup (lib : Json) (ms : List Json) : Json :=
  .obj [("instrumentationLibrary", lib), ("metrics", .arr ms)]

/-- A current-schema group document node. -/
def mkScopeGroup (sc : Json) (ms : List Json) : Json :=
  .obj [("scope", sc), ("metrics", .arr ms)]

/-- A resource entry carrying only a deprecated-schema group list. -/
def mkDeprecatedEntry (res : Json) (groups : List (Json × List Json)) : Json :=
  .obj [("resource", res),
    ("instrumentationLibraryMetrics", .arr (groups.map fun g => mkILGroup g.1 g.2))]

/-- The current-schema resource entry describing the same logical metrics as
a deprecated entry: one group per deprecated group, each with the empty scope
descriptor and the same metrics list. -/
def mkCurrentEntry (res : Json) (groups : List (List Json)) : Json :=
  .obj [("resource", res),
    ("scopeMetrics", .arr (groups.map fun ms => mkScopeGroup (.obj []) ms))]

/-! ## Theorems settling the claims -/

/-- Field lookup distributes over list append. -/
theorem lookupField_append {α : Type} (k : String) (xs ys : List (String × α)) :
    lookupField k (xs ++ ys) =
      match lookupField k xs with
      | some v => some v
      | Option.none => lookupField k ys := by
  induction xs with
  | nil => rfl
  | cons hd tl ih =>
    obtain ⟨key, v⟩ := hd
    by_cases hk : key = k
    · simp [lookupField, hk]
    · simp [lookupField, hk, ih]

/-- Field lookup on an optional string field. -/
theorem lookupField_strField (k k' v : String) :
    lookupField k (strField k' v) =
      if v = "" then Option.none
      else if k' = k then some (.str v) else Option.none := by
  by_cases hv : v = "" <;> by_cases hk : k' = k <;>
    simp [strField, lookupField, hv, hk]

/-- Element-wise decoding inverts element-wise encoding. -/
theorem decodeList_map {α β : Type} (dec : Json → Except String β)
    (enc : α → Json) (g : α → β) (h : ∀ x, dec (enc x) = .ok (g x)) :
    ∀ l : List α, decodeList dec (l.map enc) = .ok (l.map g) := by
  intro l
  induction l with
  | nil => rfl
  | cons hd tl ih =>
    simp only [List.map, decodeList, h hd, ih]
    rfl

/-- C6 counterexample: with no consumer draining an unbuffered channel, the
plain channel send in `ReportFatalError` blocks (the call does not complete),
refuting the claim that the push never blocks regardless of whether a
consumer is draining the channel. -/
theorem report_fatal_error_blocks_counterexample :
    ReportFatalError ⟨0, [], false⟩ "fatal error" = Option.none := rfl

/-- C6 (amended): `ReportFatalError` performs a plain blocking channel send;
the push completes without blocking precisely when a consumer is waiting to
receive or free buffer capacity remains, and blocks otherwise. -/
theorem report_fatal_error_blocking_send (ch : ErrorChannel) (err : String) :
    (ReportFatalError ch err).isSome = true ↔
      ch.receiverWaiting = true ∨ ch.buffered.length < ch.capacity := by
  unfold ReportFatalError
  by_cases hr : ch.receiverWaiting <;>
    by_cases hb : ch.buffered.length < ch.capacity <;>
      simp [hr, hb]

/-- C7: a freshly created request wraps a tree with `MetricCount() == 0`;
after one `AppendEmpty` at the resource, scope and metric levels,
`MetricCount() == 1`; a tree with exactly one metric whose Gauge variant has
exactly one appended data point has `MetricCount() == 1` and
`DataPointCount() == 1`, while the unset variant contributes zero data
points. -/
theorem metric_and_data_point_counts
    (sc : InstrumentationScope) (n u d : String) (dp : DataPoint) :
    NewRequest.metrics.MetricCount = 0 ∧
    NewRequest.metrics.appendEmptyResourceMetrics.appendEmptyScopeMetrics.appendEmptyMetric.MetricCount
      = 1 ∧
    (MetricsData.mk [⟨⟨⟩, [⟨sc, [⟨n, u, d, MetricData.gauge [dp]⟩]⟩], []⟩]).MetricCount = 1 ∧
    (MetricsData.mk [⟨⟨⟩, [⟨sc, [⟨n, u, d, MetricData.gauge [dp]⟩]⟩], []⟩]).DataPointCount = 1 ∧
    (MetricsData.mk [⟨⟨⟩, [⟨sc, [⟨n, u, d, MetricData.unset⟩]⟩], []⟩]).DataPointCount = 0 := by
  refine ⟨rfl, rfl, rfl, rfl, rfl⟩

/-- C9: on a zero-valued target, nil-valued entries for the top-level
pointer-to-bool and pointer-to-struct fields are left nil, while every
nil-valued entry inside the map-valued struct field materializes as a
zero-valued structure. -/
theorem nil_entry_materialization (ks : List String) :
    unmarshalExactTestConfig
      [("boolean", ConfigValue.nil), ("struct", ConfigValue.nil),
       ("map_struct", ConfigValue.map (ks.map fun k => (k, ConfigValue.nil)))]
      TestConfig.zero
    = .ok ⟨Option.none, Option.none, ks.map fun k => (k, Struct.zero)⟩ := by
  have h : decodeList unmarshalMapStructEntry (ks.map fun k => (k, ConfigValue.nil))
      = .ok (ks.map fun k => (k, Struct.zero)) := by
    induction ks with
    | nil => rfl
    | cons k ks ih =>
      simp only [List.map, decodeList, unmarshalMapStructEntry, ih]
      rfl
  simp [unmarshalExactTestConfig, h, TestConfig.zero]

/-- C10: with prepopulated non-nil defaults on the target and an all-nil
config, the top-level pointer fields keep their prepopulated values, while
the nil entry under the map-valued struct field replaces the prepopulated
entry by a zero-valued structure. -/
theorem prepopulated_defaults_frame (b : Bool) (s₁ s₂ : Struct) :
    unmarshalExactTestConfig
      [("boolean", ConfigValue.nil), ("struct", ConfigValue.nil),
       ("map_struct", ConfigValue.map [("struct", ConfigValue.nil)])]
      ⟨some b, some s₁, [("struct", s₂)]⟩
    = .ok ⟨some b, some s₁, [("struct", Struct.zero)]⟩ := rfl

/-- C4: if the handler answers every dispatched request with an error whose
message is `my error`, the client's `Export` call fails with a status whose
message is `my error` and whose classification is the generic unknown code,
accompanied by the zero-value response; moreover the outcome is independent
of whatever response value the handler produced alongside the error. -/
theorem transport_failure_propagation (handler : Server) (req : Request)
    (herr : ∀ q, (handler q).2 = some "my error") :
    clientExport handler req
      = (NewResponse, some ⟨StatusCode.unknown, "my error"⟩) ∧
    ∀ handler' : Server, (∀ q, (handler' q).2 = (handler q).2) →
      clientExport handler' req = clientExport handler req := by
  constructor
  · have h1 := herr ⟨req.metrics.migrate⟩
    unfold clientExport serverExport
    cases hq : handler ⟨req.metrics.migrate⟩ with
    | mk resp err =>
      rw [hq] at h1
      simp only at h1
      rw [h1]
  · intro handler' hsame
    have h1 := herr ⟨req.metrics.migrate⟩
    have h2 := hsame ⟨req.metrics.migrate⟩
    rw [h1] at h2
    unfold clientExport serverExport
    cases hq : handler ⟨req.metrics.migrate⟩ with
    | mk resp err =>
      cases hq' : handler' ⟨req.metrics.migrate⟩ with
      | mk resp' err' =>
        rw [hq] at h1
        rw [hq'] at h2
        simp only at h1 h2
        rw [h1, h2]

/-- C4 witness at a concrete failing handler and the concrete test request. -/
theorem transport_failure_propagation_witness :
    (∀ q : Request,
      ((fun _ : Request => (NewResponse, some "my error")) q).2 = some "my error") ∧
    clientExport (fun _ : Request => (NewResponse, some "my error"))
      generateMetricsRequest
      = (NewResponse, some ⟨StatusCode.unknown, "my error"⟩) :=
  ⟨fun _ => rfl,
    (transport_failure_propagation
      (fun _ : Request => (NewResponse, some "my error"))
      generateMetricsRequest (fun _ => rfl)).1⟩

/-- C5: a handler that returns the fixed empty response with no error makes
the client's `Export` call succeed with exactly that response, for every
request (built from current-schema or deprecated-schema input); and because
the inbound wire request is schema-normalized before dispatch, a handler
receiving the request built with only the deprecated grouping observes the
normalized tree, with `DataPointCount() == 1`. -/
theorem transport_success_normalized (handler : Server) (req : Request)
    (hok : ∀ q, handler q = (NewResponse, Option.none)) :
    clientExport handler req = (NewResponse, Option.none) ∧
    clientExport
      (fun q => (NewResponse,
        if q.metrics.DataPointCount = 1 then Option.none else some "unexpected"))
      generateMetricsRequestWithInstrumentationLibrary
      = (NewResponse, Option.none) := by
  constructor
  · unfold clientExport serverExport
    rw [hok ⟨req.metrics.migrate⟩]
  · decide

/-- Every successfully decoded key is present in the decoded map. -/
theorem mapKeyTextDecode_mem {κ ν : Type} [DecidableEq κ]
    (dec : String → Except String κ) :
    ∀ (l : List (String × ν)) (res : List (κ × ν)),
      mapKeyTextDecode dec l = .ok res →
      ∀ p ∈ l, ∀ k, dec p.1 = .ok k → ∃ q ∈ res, q.1 = k := by
  intro l
  induction l with
  | nil =>
    intro res h p hp
    cases hp
  | cons hd tl ih =>
    intro res h p hp k hk
    obtain ⟨k0, x0⟩ := hd
    cases hdec : dec k0 with
    | error e =>
      simp only [mapKeyTextDecode, hdec] at h
      exact Except.noConfusion h
    | ok key =>
      cases hrest : mapKeyTextDecode dec tl with
      | error e =>
        simp only [mapKeyTextDecode, hdec, hrest] at h
        exact Except.noConfusion h
      | ok rd =>
        simp only [mapKeyTextDecode, hdec, hrest] at h
        by_cases hany : (rd.any fun p => decide (p.1 = key)) = true
        · rw [if_pos hany] at h; exact Except.noConfusion h
        · rw [if_neg hany] at h
          have hres : (key, x0) :: rd = res := by simpa using h
          rcases List.mem_cons.mp hp with hphd | hptl
          · subst hphd
            refine ⟨(key, x0), ?_, ?_⟩
            · rw [← hres]; exact List.mem_cons_self _ _
            · have hkk : dec k0 = Except.ok k := hk
              rw [hdec] at hkk
              simpa using hkk
          · obtain ⟨q, hq, hqk⟩ := ih rd hrest p hptl k hk
            exact ⟨q, by rw [← hres]; exact List.mem_cons_of_mem _ hq, hqk⟩

/-- A faulty tail keeps the whole decode faulty. -/
theorem mapKeyTextDecode_err_append {κ ν : Type} [DecidableEq κ]
    (dec : String → Except String κ) (l₁ tail : List (String × ν))
    (h : isError (mapKeyTextDecode dec tail) = true) :
    isError (mapKeyTextDecode dec (l₁ ++ tail)) = true := by
  induction l₁ with
  | nil => simpa using h
  | cons hd tl ih =>
    obtain ⟨k0, x0⟩ := hd
    cases hdec : dec k0 with
    | error e =>
      simp only [List.cons_append, mapKeyTextDecode, hdec]
      rfl
    | ok key =>
      cases hrest : mapKeyTextDecode dec (tl ++ tail) with
      | error e =>
        simp only [List.cons_append, mapKeyTextDecode, List.append_eq, hdec, hrest]
        rfl
      | ok rd =>
        rw [hrest] at ih
        simp [isError] at ih

/-- C8: for a map field whose key type decodes from text, every input key is
decoded through the key type's text decoder (on success the decoded map is
the pointwise image of the input), a per-key decode failure makes the decode
fail, and two distinct input keys decoding to the same key value make the
decode fail with a duplicate-key error. -/
theorem text_keyed_map_decoding {κ ν : Type} [DecidableEq κ]
    (dec : String → Except String κ)
    (l₁ l₂ l₃ : List (String × ν)) (a b bad : String × ν) (x : κ) (e : String)
    (ha : dec a.1 = .ok x) (hb : dec b.1 = .ok x)
    (hbad : dec bad.1 = .error e) :
    isError (mapKeyTextDecode dec (l₁ ++ a :: l₂ ++ b :: l₃)) = true ∧
    isError (mapKeyTextDecode dec (l₁ ++ bad :: l₂)) = true ∧
    ∀ (entries : List (String × ν)) (res : List (κ × ν)),
      mapKeyTextDecode dec entries = .ok res →
      List.Forall₂ (fun p q => dec p.1 = .ok q.1 ∧ p.2 = q.2) entries res := by
  refine ⟨?_, ?_, ?_⟩
  · rw [List.append_assoc]
    refine mapKeyTextDecode_err_append dec l₁ (a :: (l₂ ++ b :: l₃)) ?_
    obtain ⟨ka, xa⟩ := a
    cases hrest : mapKeyTextDecode dec (l₂ ++ b :: l₃) with
    | error e2 =>
      simp only [mapKeyTextDecode, show dec ka = .ok x from ha, hrest]
      rfl
    | ok rd =>
      obtain ⟨q, hq, hqk⟩ := mapKeyTextDecode_mem dec (l₂ ++ b :: l₃) rd hrest b
        (by simp) x hb
      have hany : (rd.any fun p => decide (p.1 = x)) = true := by
        refine List.any_eq_true.mpr ⟨q, hq, ?_⟩
        simpa using hqk
      simp only [mapKeyTextDecode, show dec ka = .ok x from ha, hrest]
      rw [if_pos hany]
      rfl
  · refine mapKeyTextDecode_err_append dec l₁ (bad :: l₂) ?_
    obtain ⟨kb, xb⟩ := bad
    simp only [mapKeyTextDecode, show dec kb = .error e from hbad]
    rfl
  · intro entries
    induction entries with
    | nil =>
      intro res h
      have hres : res = [] := by
        simp only [mapKeyTextDecode] at h
        simpa using h.symm
      rw [hres]
      exact List.Forall₂.nil
    | cons hd tl ih =>
      intro res h
      obtain ⟨k0, x0⟩ := hd
      cases hdec : dec k0 with
      | error e2 =>
        simp only [mapKeyTextDecode, hdec] at h
        exact Except.noConfusion h
      | ok key =>
        cases hrest : mapKeyTextDecode dec tl with
        | error e2 =>
          simp only [mapKeyTextDecode, hdec, hrest] at h
          exact Except.noConfusion h
        | ok rd =>
          simp only [mapKeyTextDecode, hdec, hrest] at h
          by_cases hany : (rd.any fun p => decide (p.1 = key)) = true
          · rw [if_pos hany] at h; exact Except.noConfusion h
          · rw [if_neg hany] at h
            have hres : (key, x0) :: rd = res := by simpa using h
            rw [← hres]
            exact List.Forall₂.cons ⟨hdec, rfl⟩ (ih rd hrest)

/-- C8 witness at the `TestID` text decoder: the keys `string` and `string_`
both decode to `string` (duplicate), and the key `error` fails to decode;
the decoded map images its input pointwise on a clean input. -/
theorem text_keyed_map_decoding_witness :
    TestID.UnmarshalText "string" = .ok "string" ∧
    TestID.UnmarshalText "string_" = .ok "string" ∧
    TestID.UnmarshalText "error" = .error "parsing error" ∧
    isError (mapKeyTextDecode TestID.UnmarshalText
      ([] ++ ("string", "this is a string") :: [] ++
        ("string_", "this is another string") :: [])) = true :=
  ⟨by decide, by decide, by decide,
    (text_keyed_map_decoding TestID.UnmarshalText
      [] [] [] ("string", "this is a string") ("string_", "this is another string")
      ("error", "this is a string") "string" "parsing error"
      (by decide) (by decide) (by decide)).1⟩

/-- C5 witness at a concrete success handler and the two concrete test
requests (current-schema and deprecated-schema input). -/
theorem transport_success_normalized_witness :
    (∀ q : Request,
      (fun _ : Request => (NewResponse, Option.none)) q
        = (NewResponse, (Option.none : Option String))) ∧
    clientExport (fun _ : Request => (NewResponse, Option.none))
      generateMetricsRequestWithInstrumentationLibrary
      = (NewResponse, Option.none) :=
  ⟨fun _ => rfl,
    (transport_success_normalized
      (fun _ : Request => (NewResponse, Option.none))
      generateMetricsRequestWithInstrumentationLibrary (fun _ => rfl)).1⟩

/-- Sequencing a success just applies the continuation. -/
theorem exceptOkBind {ε α β : Type} (a : α) (f : α → Except ε β) :
    ((Except.ok a : Except ε α) >>= f) = f a := rfl

/-- Sequencing a failure propagates the failure. -/
theorem exceptErrBind {ε α β : Type} (e : ε) (f : α → Except ε β) :
    ((Except.error e : Except ε α) >>= f) = Except.error e := rfl

/-- Decoding inverts encoding on data points. -/
theorem decodeDataPoint_encode (p : DataPoint) :
    decodeDataPoint (encodeDataPoint p) = .ok p := rfl

/-- Decoding inverts encoding on the optional data-point collection. -/
theorem decodePointsField_encode (ps : List DataPoint) :
    decodePointsField (encodePointsField ps) = .ok ps := by
  cases ps with
  | nil => rfl
  | cons hd tl =>
    have h := decodeList_map decodeDataPoint encodeDataPoint id
      decodeDataPoint_encode (hd :: tl)
    simp only [List.map_id, List.map] at h
    simp [encodePointsField, decodePointsField, lookupField, h]

/-- Decoding finds no variant among the string fields of a metric object and
inverts the variant encoding. -/
theorem decodeMetricData_encode (m : Metric) :
    decodeMetricData (strField "name" m.name ++ strField "unit" m.unit ++
      strField "description" m.description ++ encodeMetricData m.data)
    = .ok m.data := by
  cases hd : m.data <;>
    simp [decodeMetricData, lookupField_append, lookupField_strField,
      encodeMetricData, lookupField, decodeVariant, decodePointsField_encode,
      Except.map]

/-- The name field of an encoded metric reads back. -/
theorem getStringField_metric_name (m : Metric) :
    getStringField (strField "name" m.name ++ strField "unit" m.unit ++
      strField "description" m.description ++ encodeMetricData m.data) "name"
    = .ok m.name := by
  by_cases hn : m.name = ""
  · cases hd : m.data <;>
      simp [getStringField, lookupField_append, lookupField_strField, hn, hd,
        encodeMetricData, lookupField]
  · simp [getStringField, lookupField_append, lookupField_strField, hn]

/-- The unit field of an encoded metric reads back. -/
theorem getStringField_metric_unit (m : Metric) :
    getStringField (strField "name" m.name ++ strField "unit" m.unit ++
      strField "description" m.description ++ encodeMetricData m.data) "unit"
    = .ok m.unit := by
  by_cases hu : m.unit = ""
  · cases hd : m.data <;>
      simp [getStringField, lookupField_append, lookupField_strField, hu, hd,
        encodeMetricData, lookupField]
  · simp [getStringField, lookupField_append, lookupField_strField, hu]

/-- The description field of an encoded metric reads back. -/
theorem getStringField_metric_description (m : Metric) :
    getStringField (strField "name" m.name ++ strField "unit" m.unit ++
      strField "description" m.description ++ encodeMetricData m.data) "description"
    = .ok m.description := by
  by_cases hde : m.description = ""
  · cases hd : m.data <;>
      simp [getStringField, lookupField_append, lookupField_strField, hde, hd,
        encodeMetricData, lookupField]
  · simp [getStringField, lookupField_append, lookupField_strField, hde]

/-- Decoding inverts encoding on metric nodes. -/
theorem decodeMetric_encode (m : Metric) :
    decodeMetric (encodeMetric m) = .ok m := by
  simp only [encodeMetric, decodeMetric, getStringField_metric_name,
    getStringField_metric_unit, getStringField_metric_description,
    decodeMetricData_encode]
  rfl

/-- Decoding inverts encoding on scope descriptors. -/
theorem decodeScope_encode (sc : InstrumentationScope) :
    decodeScope (encodeScope sc) = .ok sc := by
  obtain ⟨n, v⟩ := sc
  by_cases hn : n = "" <;> by_cases hv : v = "" <;>
    simp [encodeScope, decodeScope, getStringField, lookupField_append,
      lookupField_strField, hn, hv] <;> rfl

/-- Decoding inverts encoding on current-schema groups. -/
theorem decodeScopeMetrics_encode (sm : ScopeMetrics) :
    decodeScopeMetrics (encodeScopeMetrics sm) = .ok sm := by
  obtain ⟨sc, ms⟩ := sm
  cases ms with
  | nil =>
    simp [encodeScopeMetrics, encodeMetricsField, decodeScopeMetrics,
      lookupField, decodeScope_encode, decodeMetricsField, exceptOkBind]
  | cons hd tl =>
    have h := decodeList_map decodeMetric encodeMetric id
      decodeMetric_encode (hd :: tl)
    simp only [List.map_id, List.map] at h
    simp [encodeScopeMetrics, encodeMetricsField, decodeScopeMetrics,
      lookupField, decodeScope_encode, decodeMetricsField, exceptOkBind, h]

/-- Decoding inverts encoding on resource entries, up to the deprecated list
(never emitted, hence decoded empty). -/
theorem decodeResourceMetrics_encode (rm : ResourceMetrics) :
    decodeResourceMetrics (encodeResourceMetrics rm)
      = .ok ⟨rm.resource, rm.scopeMetrics, []⟩ := by
  obtain ⟨res, sms, ils⟩ := rm
  cases sms with
  | nil =>
    simp [encodeResourceMetrics, decodeResourceMetrics, lookupField,
      decodeResource, exceptOkBind]
  | cons hd tl =>
    have h := decodeList_map decodeScopeMetrics encodeScopeMetrics id
      decodeScopeMetrics_encode (hd :: tl)
    simp only [List.map_id, List.map] at h
    simp [encodeResourceMetrics, decodeResourceMetrics, lookupField,
      decodeResource, exceptOkBind, h]

/-- Decoding inverts encoding on whole trees, stripping the (never emitted)
deprecated lists. -/
theorem decodeMetricsData_encode (md : MetricsData) :
    decodeMetricsData (encodeMetricsData md)
      = .ok ⟨md.resourceMetrics.map fun rm => ⟨rm.resource, rm.scopeMetrics, []⟩⟩ := by
  obtain ⟨rms⟩ := md
  cases rms with
  | nil => rfl
  | cons hd tl =>
    have h := decodeList_map decodeResourceMetrics encodeResourceMetrics
      (fun rm => (⟨rm.resource, rm.scopeMetrics, []⟩ : ResourceMetrics))
      decodeResourceMetrics_encode (hd :: tl)
    simp only [List.map] at h
    simp [encodeMetricsData, decodeMetricsData, lookupField, exceptOkBind, h]

/-- Migration leaves an entry with an empty deprecated list unchanged. -/
theorem migrateResourceMetrics_stripped (r : Resource) (sms : List ScopeMetrics) :
    migrateResourceMetrics ⟨r, sms, []⟩ = ⟨r, sms, []⟩ := by
  cases sms <;> rfl

/-- Migrating after stripping already-empty deprecated lists is the
identity. -/
theorem map_migrate_stripped (l : List ResourceMetrics)
    (h : ∀ rm ∈ l, rm.instrumentationLibraryMetrics = []) :
    (l.map fun rm => migrateResourceMetrics ⟨rm.resource, rm.scopeMetrics, []⟩) = l := by
  induction l with
  | nil => rfl
  | cons hd tl ih =>
    have hhd : hd.instrumentationLibraryMetrics = [] := h hd (List.mem_cons_self _ _)
    have h2 : (⟨hd.resource, hd.scopeMetrics, []⟩ : ResourceMetrics) = hd := by
      obtain ⟨r, sms, ils⟩ := hd
      simp only at hhd
      rw [hhd]
    have h1 : migrateResourceMetrics ⟨hd.resource, hd.scopeMetrics, []⟩ = hd := by
      rw [migrateResourceMetrics_stripped]
      exact h2
    simp only [List.map, h1, ih fun rm hrm => h rm (List.mem_cons_of_mem _ hrm)]

/-- A string value mentions no object key. -/
theorem mentionsKey_str (k s : String) :
    Json.mentionsKey k (Json.str s) = false := rfl

/-- Key search on an array value searches its elements. -/
theorem mentionsKey_arr (k : String) (xs : List Json) :
    Json.mentionsKey k (Json.arr xs) = Json.mentionsKeyElems k xs := rfl

/-- Key search on an object value searches its fields. -/
theorem mentionsKey_obj (k : String) (fs : List (String × Json)) :
    Json.mentionsKey k (Json.obj fs) = Json.mentionsKeyFields k fs := rfl

/-- Key search on an empty element list. -/
theorem mentionsKeyElems_nil (k : String) :
    Json.mentionsKeyElems k [] = false := rfl

/-- Key search on a non-empty element list. -/
theorem mentionsKeyElems_cons (k : String) (x : Json) (xs : List Json) :
    Json.mentionsKeyElems k (x :: xs)
      = (Json.mentionsKey k x || Json.mentionsKeyElems k xs) := rfl

/-- Key search on an empty field list. -/
theorem mentionsKeyFields_nil (k : String) :
    Json.mentionsKeyFields k [] = false := rfl

/-- Key search on a non-empty field list. -/
theorem mentionsKeyFields_cons (k key : String) (v : Json) (fs : List (String × Json)) :
    Json.mentionsKeyFields k ((key, v) :: fs)
      = (decide (key = k) || Json.mentionsKey k v || Json.mentionsKeyFields k fs) := rfl

/-- Object fields of an appended field list mention a key iff either part
does. -/
theorem mentionsKeyFields_append (k : String) (xs ys : List (String × Json)) :
    Json.mentionsKeyFields k (xs ++ ys)
      = (Json.mentionsKeyFields k xs || Json.mentionsKeyFields k ys) := by
  induction xs with
  | nil => simp [mentionsKeyFields_nil]
  | cons hd tl ih =>
    obtain ⟨key, v⟩ := hd
    simp [mentionsKeyFields_cons, ih, Bool.or_assoc]

/-- An element-wise encoded array mentions no key its encoder never emits. -/
theorem mentionsKeyElems_map {α : Type} (k : String) (enc : α → Json)
    (h : ∀ x, Json.mentionsKey k (enc x) = false) (l : List α) :
    Json.mentionsKeyElems k (l.map enc) = false := by
  induction l with
  | nil => rfl
  | cons hd tl ih => simp [List.map, mentionsKeyElems_cons, h hd, ih]

/-- An optional string field never mentions a different key. -/
theorem mentionsKey_strField (k k' v : String) (hk : ¬k' = k) :
    Json.mentionsKeyFields k (strField k' v) = false := by
  by_cases hv : v = "" <;>
    simp [strField, hv, mentionsKeyFields_nil, mentionsKeyFields_cons,
      mentionsKey_str, hk]

/-- The encoded data-point collection never mentions the deprecated key. -/
theorem mentionsKey_encodePointsField (ps : List DataPoint) :
    Json.mentionsKeyFields "instrumentationLibraryMetrics" (encodePointsField ps)
      = false := by
  cases ps with
  | nil => rfl
  | cons hd tl =>
    have h := mentionsKeyElems_map "instrumentationLibraryMetrics"
      encodeDataPoint (fun p => rfl) (hd :: tl)
    simp only [List.map] at h
    simp [encodePointsField, mentionsKeyFields_cons, mentionsKeyFields_nil,
      mentionsKey_arr, h]

/-- An encoded metric never mentions the deprecated key. -/
theorem mentionsKey_encodeMetric (m : Metric) :
    Json.mentionsKey "instrumentationLibraryMetrics" (encodeMetric m) = false := by
  cases hd : m.data <;>
    simp [encodeMetric, mentionsKey_obj, mentionsKeyFields_append,
      mentionsKey_strField, hd, encodeMetricData, mentionsKeyFields_nil,
      mentionsKeyFields_cons, mentionsKey_encodePointsField]

/-- An encoded scope descriptor never mentions the deprecated key. -/
theorem mentionsKey_encodeScope (sc : InstrumentationScope) :
    Json.mentionsKey "instrumentationLibraryMetrics" (encodeScope sc) = false := by
  simp [encodeScope, mentionsKey_obj, mentionsKeyFields_append,
    mentionsKey_strField]

/-- An encoded current-schema group never mentions the deprecated key. -/
theorem mentionsKey_encodeScopeMetrics (sm : ScopeMetrics) :
    Json.mentionsKey "instrumentationLibraryMetrics" (encodeScopeMetrics sm)
      = false := by
  cases hms : sm.metrics with
  | nil =>
    simp [encodeScopeMetrics, hms, encodeMetricsField, mentionsKey_obj,
      mentionsKeyFields_cons, mentionsKeyFields_nil, mentionsKey_encodeScope]
  | cons hd tl =>
    have h := mentionsKeyElems_map "instrumentationLibraryMetrics"
      encodeMetric mentionsKey_encodeMetric (hd :: tl)
    simp only [List.map] at h
    simp [encodeScopeMetrics, hms, encodeMetricsField, mentionsKey_obj,
      mentionsKeyFields_cons, mentionsKeyFields_nil, mentionsKey_encodeScope,
      mentionsKey_arr, h]

/-- An encoded resource entry never mentions the deprecated key. -/
theorem mentionsKey_encodeResourceMetrics (rm : ResourceMetrics) :
    Json.mentionsKey "instrumentationLibraryMetrics" (encodeResourceMetrics rm)
      = false := by
  cases hs : rm.scopeMetrics with
  | nil =>
    simp [encodeResourceMetrics, hs, mentionsKey_obj, mentionsKeyFields_cons,
      mentionsKeyFields_nil]
  | cons hd tl =>
    have h := mentionsKeyElems_map "instrumentationLibraryMetrics"
      encodeScopeMetrics mentionsKey_encodeScopeMetrics (hd :: tl)
    simp only [List.map] at h
    simp [encodeResourceMetrics, hs, mentionsKey_obj, mentionsKeyFields_cons,
      mentionsKeyFields_nil, mentionsKey_arr, h]

/-- The encoded output of any tree never mentions the deprecated field name,
at any nesting depth. -/
theorem mentionsKey_encodeMetricsData (md : MetricsData) :
    Json.mentionsKey "instrumentationLibraryMetrics" (encodeMetricsData md)
      = false := by
  cases hr : md.resourceMetrics with
  | nil =>
    simp [encodeMetricsData, hr, mentionsKey_obj, mentionsKeyFields_nil]
  | cons hd tl =>
    have h := mentionsKeyElems_map "instrumentationLibraryMetrics"
      encodeResourceMetrics mentionsKey_encodeResourceMetrics (hd :: tl)
    simp only [List.map] at h
    simp [encodeMetricsData, hr, mentionsKey_obj, mentionsKeyFields_cons,
      mentionsKeyFields_nil, mentionsKey_arr, h]

/-- C3: for every minimal current-schema input (the encoded form of a tree
with no deprecated content), decoding into a Request envelope and re-encoding
reproduces the input: the decode of the emitted JSON value is exactly the
original tree (so the re-encoded bytes are the input bytes modulo
whitespace), the deprecated field name never appears anywhere in the emitted
value, the emitted bytes are the whitespace-free serialization of the emitted
value, and a fully empty tree emits the empty object (structurally-empty
fields are omitted). -/
theorem minimal_roundtrip_current_schema (md : MetricsData) (h : md.noDeprecated) :
    Request.UnmarshalJSON (Request.MarshalJSONValue ⟨md⟩) = .ok ⟨md⟩ ∧
    Json.mentionsKey "instrumentationLibraryMetrics" (Request.MarshalJSONValue ⟨md⟩)
      = false ∧
    Request.MarshalJSON ⟨md⟩ = (Request.MarshalJSONValue ⟨md⟩).render ∧
    Request.MarshalJSONValue ⟨MetricsData.empty⟩ = Json.obj [] := by
  refine ⟨?_, mentionsKey_encodeMetricsData md, rfl, rfl⟩
  have hmap : ((md.resourceMetrics.map fun rm =>
      (⟨rm.resource, rm.scopeMetrics, []⟩ : ResourceMetrics)).map migrateResourceMetrics)
      = md.resourceMetrics := by
    rw [List.map_map]
    exact map_migrate_stripped md.resourceMetrics h
  simp only [Request.MarshalJSONValue, Request.UnmarshalJSON,
    decodeMetricsData_encode, Except.map, MetricsData.migrate,
    InstrumentationLibraryMetricsToScope]
  rw [hmap]

/-- C3 witness at the tree decoded from the concrete minimal document
`metricsRequestJSON`. -/
theorem minimal_roundtrip_current_schema_witness :
    (MetricsData.mk [⟨⟨⟩, [⟨⟨"", ""⟩, [⟨"test_metric", "", "", MetricData.unset⟩]⟩], []⟩]).noDeprecated ∧
    Request.UnmarshalJSON (Request.MarshalJSONValue
      ⟨MetricsData.mk [⟨⟨⟩, [⟨⟨"", ""⟩, [⟨"test_metric", "", "", MetricData.unset⟩]⟩], []⟩]⟩)
      = .ok ⟨MetricsData.mk [⟨⟨⟩, [⟨⟨"", ""⟩, [⟨"test_metric", "", "", MetricData.unset⟩]⟩], []⟩]⟩ :=
  ⟨by decide, (minimal_roundtrip_current_schema
    (MetricsData.mk [⟨⟨⟩, [⟨⟨"", ""⟩, [⟨"test_metric", "", "", MetricData.unset⟩]⟩], []⟩])
    (by decide)).1⟩

/-- A successful element-wise decode of a non-empty list is non-empty. -/
theorem decodeList_cons_ok {α β : Type} (dec : α → Except String β)
    (x : α) (xs : List α) (l : List β)
    (h : decodeList dec (x :: xs) = .ok l) : ∃ b rest, l = b :: rest := by
  cases hx : dec x with
  | error e =>
    simp only [decodeList, hx] at h
    exact Except.noConfusion h
  | ok b =>
    cases hrest : decodeList dec xs with
    | error e =>
      simp only [decodeList, hx, hrest] at h
      exact Except.noConfusion h
    | ok rest =>
      simp only [decodeList, hx, hrest, exceptOkBind] at h
      exact ⟨b, rest, by simpa using h.symm⟩

/-- Replacing one element of the decoded list by another with the same
image under `f` leaves the `f`-image of the whole decode unchanged. -/
theorem decodeList_map_rel {α β γ : Type} (dec : α → Except String β) (f : β → γ)
    (x y : α) (hxy : (dec x).map f = (dec y).map f) :
    ∀ pre post : List α,
      ((decodeList dec (pre ++ x :: post)).map (List.map f))
        = ((decodeList dec (pre ++ y :: post)).map (List.map f)) := by
  intro pre
  induction pre with
  | nil =>
    intro post
    cases hx : dec x with
    | error ex =>
      cases hy : dec y with
      | error ey =>
        rw [hx, hy] at hxy
        simp only [Except.map] at hxy
        cases hxy
        simp [decodeList, hx, hy]
      | ok b =>
        rw [hx, hy] at hxy
        simp only [Except.map] at hxy
        exact Except.noConfusion hxy
    | ok a =>
      cases hy : dec y with
      | error ey =>
        rw [hx, hy] at hxy
        simp only [Except.map] at hxy
        exact Except.noConfusion hxy
      | ok b =>
        rw [hx, hy] at hxy
        simp only [Except.map] at hxy
        have hfab : f a = f b := by simpa using hxy
        cases hrest : decodeList dec post with
        | error e =>
          simp [decodeList, hx, hy, hrest, Except.map, exceptOkBind,
            exceptErrBind]
        | ok rest =>
          simp [decodeList, hx, hy, hrest, exceptOkBind, Except.map,
            List.map, hfab]
  | cons p pre ih =>
    intro post
    cases hp : dec p with
    | error e =>
      simp [decodeList, hp, Except.map, exceptErrBind]
    | ok a =>
      have ihp := ih post
      cases h1 : decodeList dec (pre ++ x :: post) with
      | error e1 =>
        cases h2 : decodeList dec (pre ++ y :: post) with
        | error e2 =>
          rw [h1, h2] at ihp
          simp only [Except.map] at ihp
          cases ihp
          simp [decodeList, hp, h1, h2, Except.map, exceptOkBind, exceptErrBind]
        | ok l2 =>
          rw [h1, h2] at ihp
          simp only [Except.map] at ihp
          exact Except.noConfusion ihp
      | ok l1 =>
        cases h2 : decodeList dec (pre ++ y :: post) with
        | error e2 =>
          rw [h1, h2] at ihp
          simp only [Except.map] at ihp
          exact Except.noConfusion ihp
        | ok l2 =>
          rw [h1, h2] at ihp
          simp only [Except.map] at ihp
          have hl : List.map f l1 = List.map f l2 := by simpa using ihp
          simp [decodeList, hp, h1, h2, exceptOkBind, Except.map, List.map, hl]

/-- Unmarshalling a wire document is element-wise entry decoding followed by
per-entry migration. -/
theorem unmarshal_mkDoc (entries : List Json) :
    Request.UnmarshalJSON (mkMetricsDoc entries)
      = ((decodeList decodeResourceMetrics entries).map
          (fun l => l.map migrateResourceMetrics)).map
          (fun l => (⟨⟨l⟩⟩ : Request)) := by
  cases h : decodeList decodeResourceMetrics entries <;>
    simp [Request.UnmarshalJSON, mkMetricsDoc, decodeMetricsData, lookupField,
      exceptOkBind, exceptErrBind, Except.map, MetricsData.migrate,
      InstrumentationLibraryMetricsToScope, h]

/-- On a resource entry whose current-schema group list is non-empty,
migration after decoding ignores a well-formed deprecated-schema list: the
migrated decode equals that of the entry without the deprecated field. -/
theorem decodeEntry_dual (res : Json) (sg il : List Json) (hsg : sg ≠ [])
    (hil : isError (decodeList decodeInstrumentationLibraryMetrics il) = false) :
    (decodeResourceMetrics (mkResourceEntry res sg (some il))).map migrateResourceMetrics
      = (decodeResourceMetrics (mkResourceEntry res sg Option.none)).map
          migrateResourceMetrics := by
  cases hres : decodeResource res with
  | error e =>
    simp [mkResourceEntry, decodeResourceMetrics, lookupField, hres,
      exceptErrBind, Except.map]
  | ok rv =>
    cases hsms : decodeList decodeScopeMetrics sg with
    | error e =>
      simp [mkResourceEntry, decodeResourceMetrics, lookupField, hres, hsms,
        exceptOkBind, exceptErrBind, Except.map]
    | ok sl =>
      cases hils : decodeList decodeInstrumentationLibraryMetrics il with
      | error e =>
        rw [hils] at hil
        simp [isError] at hil
      | ok ils =>
        obtain ⟨s0, srest, hsl⟩ : ∃ b rest, sl = b :: rest := by
          cases sg with
          | nil => exact absurd rfl hsg
          | cons x xs => exact decodeList_cons_ok _ x xs sl hsms
        subst hsl
        simp [mkResourceEntry, decodeResourceMetrics, lookupField, hres, hsms,
          hils, exceptOkBind, Except.map, migrateResourceMetrics]

/-- C1: for every resource entry of a decoded document that carries both a
non-empty current-schema group list and a (well-formed) deprecated-schema
group list, decoding yields the same tree as decoding the entry with the
current-schema grouping alone — the deprecated grouping is ignored — and the
deprecated grouping's content is absent from the re-encoded output, whose
fields never use the deprecated name. -/
theorem dual_presence_resolution (res : Json) (sg il pre post : List Json)
    (hsg : sg ≠ [])
    (hil : isError (decodeList decodeInstrumentationLibraryMetrics il) = false) :
    Request.UnmarshalJSON
        (mkMetricsDoc (pre ++ mkResourceEntry res sg (some il) :: post))
      = Request.UnmarshalJSON
        (mkMetricsDoc (pre ++ mkResourceEntry res sg Option.none :: post)) ∧
    ∀ r : Request,
      Request.UnmarshalJSON
          (mkMetricsDoc (pre ++ mkResourceEntry res sg (some il) :: post))
        = .ok r →
      Json.mentionsKey "instrumentationLibraryMetrics" (Request.MarshalJSONValue r)
        = false := by
  constructor
  · rw [unmarshal_mkDoc, unmarshal_mkDoc]
    exact congrArg (Except.map fun l => (⟨⟨l⟩⟩ : Request))
      (decodeList_map_rel decodeResourceMetrics migrateResourceMetrics _ _
        (decodeEntry_dual res sg il hsg hil) pre post)
  · intro r hr
    exact mentionsKey_encodeMetricsData r.metrics

/-- C1 witness at the concrete dual-presence transition document from the
tests (one resource entry, both groupings populated with the metric
`test_metric`). -/
theorem dual_presence_resolution_witness :
    (([mkScopeGroup (.obj []) [Json.obj [("name", .str "test_metric")]]] :
        List Json) ≠ [] ∧
     isError (decodeList decodeInstrumentationLibraryMetrics
       [mkILGroup (.obj []) [Json.obj [("name", .str "test_metric")]]]) = false) ∧
    Request.UnmarshalJSON (mkMetricsDoc ([] ++ mkResourceEntry (.obj [])
        [mkScopeGroup (.obj []) [Json.obj [("name", .str "test_metric")]]]
        (some [mkILGroup (.obj []) [Json.obj [("name", .str "test_metric")]]]) :: []))
      = Request.UnmarshalJSON (mkMetricsDoc ([] ++ mkResourceEntry (.obj [])
        [mkScopeGroup (.obj []) [Json.obj [("name", .str "test_metric")]]]
        Option.none :: [])) :=
  ⟨⟨by decide, by decide⟩,
    (dual_presence_resolution (.obj [])
      [mkScopeGroup (.obj []) [Json.obj [("name", .str "test_metric")]]]
      [mkILGroup (.obj []) [Json.obj [("name", .str "test_metric")]]]
      [] [] (by decide) (by decide)).1⟩

/-- Migration of a deprecated-only entry: one current group per deprecated
group, with the default/empty scope descriptor and the identical metrics
list (order preserved), and the deprecated list cleared. -/
theorem migrate_dep_entry (rsc : Resource) (gs : List InstrumentationLibraryMetrics) :
    migrateResourceMetrics ⟨rsc, [], gs⟩
      = ⟨rsc, gs.map fun g => ⟨InstrumentationScope.empty, g.metrics⟩, []⟩ := by
  cases gs <;> rfl

/-- Decoding a built deprecated-schema group node. -/
theorem decodeILGroup (lib : Json) (ms : List Json) :
    decodeInstrumentationLibraryMetrics (mkILGroup lib ms)
      = (do
          let sc ← decodeScope lib
          let msv ← decodeList decodeMetric ms
          Except.ok (⟨sc, msv⟩ : InstrumentationLibraryMetrics)) := by
  cases h1 : decodeScope lib <;> cases h2 : decodeList decodeMetric ms <;>
    simp [mkILGroup, decodeInstrumentationLibraryMetrics, lookupField,
      decodeMetricsField, exceptOkBind, exceptErrBind, h1, h2]

/-- Decoding a built current-schema group node with the empty scope. -/
theorem decodeScopeGroupEmpty (ms : List Json) :
    decodeScopeMetrics (mkScopeGroup (.obj []) ms)
      = (do
          let msv ← decodeList decodeMetric ms
          Except.ok (⟨InstrumentationScope.empty, msv⟩ : ScopeMetrics)) := by
  cases h2 : decodeList decodeMetric ms <;>
    simp [mkScopeGroup, decodeScopeMetrics, decodeScope, getStringField,
      lookupField, decodeMetricsField, exceptOkBind, exceptErrBind, h2,
      InstrumentationScope.empty]

/-- The current-schema group describing the same logical metrics decodes to
the migrated image of the deprecated group. -/
theorem scopeGroup_of_ilGroup (g : Json × List Json)
    (il : InstrumentationLibraryMetrics)
    (h : decodeInstrumentationLibraryMetrics (mkILGroup g.1 g.2) = .ok il) :
    decodeScopeMetrics (mkScopeGroup (.obj []) g.2)
      = .ok ⟨InstrumentationScope.empty, il.metrics⟩ := by
  obtain ⟨lib, ms⟩ := g
  rw [decodeILGroup] at h
  cases hsc : decodeScope lib with
  | error e =>
    rw [hsc, exceptErrBind] at h
    exact Except.noConfusion h
  | ok sc =>
    cases hms : decodeList decodeMetric ms with
    | error e =>
      rw [hsc, exceptOkBind, hms, exceptErrBind] at h
      exact Except.noConfusion h
    | ok msv =>
      rw [hsc, exceptOkBind, hms, exceptOkBind] at h
      have hil : ({ instrumentationLibrary := sc, metrics := msv } :
          InstrumentationLibraryMetrics) = il := by simpa using h
      rw [decodeScopeGroupEmpty, hms, exceptOkBind, ← hil]

/-- Pointwise-related decoders transport a successful element-wise decode. -/
theorem decodeList_rel {α β β2 : Type} (d1 : α → Except String β)
    (d2 : α → Except String β2) (g : β → β2)
    (hrel : ∀ x b, d1 x = .ok b → d2 x = .ok (g b)) :
    ∀ (l : List α) (res : List β), decodeList d1 l = .ok res →
      decodeList d2 l = .ok (res.map g) := by
  intro l
  induction l with
  | nil =>
    intro res h
    obtain rfl : ([] : List β) = res := by simpa [decodeList] using h
    rfl
  | cons x xs ih =>
    intro res h
    cases hx : d1 x with
    | error e =>
      simp only [decodeList, hx, exceptErrBind] at h
      exact Except.noConfusion h
    | ok b =>
      cases hrest : decodeList d1 xs with
      | error e =>
        simp only [decodeList, hx, exceptOkBind, hrest, exceptErrBind] at h
        exact Except.noConfusion h
      | ok rest =>
        simp only [decodeList, hx, exceptOkBind, hrest, exceptOkBind] at h
        obtain rfl : b :: rest = res := by simpa using h
        simp only [decodeList, hrel x b hx, exceptOkBind, ih rest hrest,
          List.map]

/-- Element-wise decoding of a mapped list is decoding through the map. -/
theorem decodeList_map_comp {α β γ : Type} (dec : β → Except String γ)
    (f : α → β) (l : List α) :
    decodeList dec (l.map f) = decodeList (fun x => dec (f x)) l := by
  induction l with
  | nil => rfl
  | cons x xs ih => simp only [List.map, decodeList, ih]

/-- Decoding a built deprecated-only resource entry. -/
theorem decodeDepEntry (res : Json) (groups : List (Json × List Json)) :
    decodeResourceMetrics (mkDeprecatedEntry res groups)
      = (do
          let rv ← decodeResource res
          let gs ← decodeList decodeInstrumentationLibraryMetrics
            (groups.map fun g => mkILGroup g.1 g.2)
          Except.ok (⟨rv, [], gs⟩ : ResourceMetrics)) := by
  cases h1 : decodeResource res <;>
    cases h2 : decodeList decodeInstrumentationLibraryMetrics
      (groups.map fun g => mkILGroup g.1 g.2) <;>
    simp [mkDeprecatedEntry, decodeResourceMetrics, lookupField, exceptOkBind,
      exceptErrBind, h1, h2]

/-- Decoding a built current-only resource entry. -/
theorem decodeCurEntry (res : Json) (mss : List (List Json)) :
    decodeResourceMetrics (mkCurrentEntry res mss)
      = (do
          let rv ← decodeResource res
          let sl ← decodeList decodeScopeMetrics
            (mss.map fun ms => mkScopeGroup (.obj []) ms)
          Except.ok (⟨rv, sl, []⟩ : ResourceMetrics)) := by
  cases h1 : decodeResource res <;>
    cases h2 : decodeList decodeScopeMetrics
      (mss.map fun ms => mkScopeGroup (.obj []) ms) <;>
    simp [mkCurrentEntry, decodeResourceMetrics, lookupField, exceptOkBind,
      exceptErrBind, h1, h2]

/-- C2: when a deprecated-schema document decodes successfully, the
current-schema document describing the same logical metrics (one group per
deprecated group, empty scope descriptor, identical metrics lists in the same
order) decodes to the very same tree — hence equal metric names, equal
`MetricCount`, and byte-identical re-encoded current-schema output — and
migration maps a deprecated-only entry to one current group per deprecated
group with the default/empty scope descriptor and the identical metrics
list, clearing the deprecated list. -/
theorem migration_equivalence (res : Json) (groups : List (Json × List Json))
    (r : Request)
    (h : Request.UnmarshalJSON (mkMetricsDoc [mkDeprecatedEntry res groups])
      = .ok r) :
    Request.UnmarshalJSON (mkMetricsDoc [mkCurrentEntry res (groups.map Prod.snd)])
      = .ok r ∧
    (Request.UnmarshalJSON
        (mkMetricsDoc [mkCurrentEntry res (groups.map Prod.snd)])).map
        (fun r2 => r2.metrics.metricNames) = .ok r.metrics.metricNames ∧
    (Request.UnmarshalJSON
        (mkMetricsDoc [mkCurrentEntry res (groups.map Prod.snd)])).map
        (fun r2 => r2.metrics.MetricCount) = .ok r.metrics.MetricCount ∧
    (Request.UnmarshalJSON
        (mkMetricsDoc [mkCurrentEntry res (groups.map Prod.snd)])).map
        Request.MarshalJSON = .ok (Request.MarshalJSON r) ∧
    ∀ (rsc : Resource) (gs : List InstrumentationLibraryMetrics),
      migrateResourceMetrics ⟨rsc, [], gs⟩
        = ⟨rsc, gs.map fun g => ⟨InstrumentationScope.empty, g.metrics⟩, []⟩ := by
  have hmain : Request.UnmarshalJSON
      (mkMetricsDoc [mkCurrentEntry res (groups.map Prod.snd)]) = .ok r := by
    rw [unmarshal_mkDoc] at h
    cases hent : decodeResourceMetrics (mkDeprecatedEntry res groups) with
    | error e =>
      have hdl : decodeList decodeResourceMetrics [mkDeprecatedEntry res groups]
          = .error e := by
        simp [decodeList, hent, exceptErrBind]
      rw [hdl] at h
      simp only [Except.map] at h
      exact Except.noConfusion h
    | ok ent =>
      have hdl : decodeList decodeResourceMetrics [mkDeprecatedEntry res groups]
          = .ok [ent] := by
        simp [decodeList, hent, exceptOkBind]
      rw [hdl] at h
      simp only [Except.map, List.map] at h
      have hr : (⟨⟨[migrateResourceMetrics ent]⟩⟩ : Request) = r := by
        simpa using h
      rw [decodeDepEntry] at hent
      cases hres : decodeResource res with
      | error e =>
        rw [hres, exceptErrBind] at hent
        exact Except.noConfusion hent
      | ok rv =>
        cases hgs : decodeList decodeInstrumentationLibraryMetrics
            (groups.map fun g => mkILGroup g.1 g.2) with
        | error e =>
          rw [hres, exceptOkBind, hgs, exceptErrBind] at hent
          exact Except.noConfusion hent
        | ok gs =>
          rw [hres, exceptOkBind, hgs, exceptOkBind] at hent
          have hent2 : (⟨rv, [], gs⟩ : ResourceMetrics) = ent := by
            simpa using hent
          have hgroups : decodeList
              (fun g : Json × List Json =>
                decodeInstrumentationLibraryMetrics (mkILGroup g.1 g.2)) groups
              = .ok gs := by
            rw [← decodeList_map_comp]
            exact hgs
          have hcur : decodeList decodeScopeMetrics
              ((groups.map Prod.snd).map fun ms => mkScopeGroup (.obj []) ms)
              = .ok (gs.map fun g =>
                  (⟨InstrumentationScope.empty, g.metrics⟩ : ScopeMetrics)) := by
            rw [List.map_map, decodeList_map_comp]
            exact decodeList_rel
              (fun g : Json × List Json =>
                decodeInstrumentationLibraryMetrics (mkILGroup g.1 g.2))
              (fun g : Json × List Json =>
                decodeScopeMetrics (mkScopeGroup (.obj []) g.2))
              (fun il => ⟨InstrumentationScope.empty, il.metrics⟩)
              (fun g il hg => scopeGroup_of_ilGroup g il hg)
              groups gs hgroups
          have hcent : decodeResourceMetrics
              (mkCurrentEntry res (groups.map Prod.snd))
              = .ok ⟨rv, gs.map fun g =>
                  ⟨InstrumentationScope.empty, g.metrics⟩, []⟩ := by
            rw [decodeCurEntry, hres, exceptOkBind, hcur, exceptOkBind]
          have hdl2 : decodeList decodeResourceMetrics
              [mkCurrentEntry res (groups.map Prod.snd)]
              = .ok [⟨rv, gs.map fun g =>
                  ⟨InstrumentationScope.empty, g.metrics⟩, []⟩] := by
            simp [decodeList, hcent, exceptOkBind]
          rw [unmarshal_mkDoc, hdl2]
          simp only [Except.map, List.map]
          have hmig : migrateResourceMetrics
              ⟨rv, gs.map fun g => ⟨InstrumentationScope.empty, g.metrics⟩, []⟩
              = migrateResourceMetrics ent := by
            rw [← hent2, migrate_dep_entry, migrateResourceMetrics_stripped]
          rw [hmig, ← hr]
  refine ⟨hmain, ?_, ?_, ?_, migrate_dep_entry⟩ <;> rw [hmain] <;>
    simp [Except.map]

/-- C2 witness at the concrete deprecated-schema transition document from
the tests and its current-schema counterpart. -/
theorem migration_equivalence_witness :
    Request.UnmarshalJSON (mkMetricsDoc [mkDeprecatedEntry (.obj [])
        [(Json.obj [], [Json.obj [("name", Json.str "test_metric")]])]])
      = .ok ⟨⟨[⟨⟨⟩, [⟨⟨"", ""⟩, [⟨"test_metric", "", "", MetricData.unset⟩]⟩], []⟩]⟩⟩ ∧
    Request.UnmarshalJSON (mkMetricsDoc [mkCurrentEntry (.obj [])
        ([(Json.obj [], [Json.obj [("name", Json.str "test_metric")]])].map Prod.snd)])
      = .ok ⟨⟨[⟨⟨⟩, [⟨⟨"", ""⟩, [⟨"test_metric", "", "", MetricData.unset⟩]⟩], []⟩]⟩⟩ :=
  ⟨by decide,
    (migration_equivalence (.obj [])
      [(Json.obj [], [Json.obj [("name", Json.str "test_metric")]])]
      ⟨⟨[⟨⟨⟩, [⟨⟨"", ""⟩, [⟨"test_metric", "", "", MetricData.unset⟩]⟩], []⟩]⟩⟩
      (by decide)).1⟩

end OtelCollector
